import Mathlib

/-!
Verification of the backup-scrapbox snapshot data model and link-extraction
engine (`src/backup_scrapbox/_backup.py` and `_external_link.py`) as a shallow
embedding: JSON documents, the JSON Schema checks performed at `Backup`
construction, the code-span filter, internal/external link extraction, page
ordering, save-path enumeration, and the external-link liveness prober.
-/

namespace BackupScrapbox

/-! ## JSON values

Snapshot documents are `json.load`-produced Python values; we model them with
an inductive JSON type.  Python `dict`s cannot carry duplicate keys after
parsing, but nothing below relies on that.
-/

/-- JSON value, as produced by `json.load`. -/
inductive Json where
  | null : Json
  | bool (b : Bool) : Json
  | int (n : Int) : Json
  | str (s : String) : Json
  | arr (items : List Json) : Json
  | obj (fields : List (String × Json)) : Json

/-- Check for the JSON Schema primitive type `string`. -/
def isStr : Json → Bool
  | .str _ => true
  | _ => false

/-- Check for the JSON Schema primitive type `integer`. -/
def isInt : Json → Bool
  | .int _ => true
  | _ => false

/-! ## Schema validators

Each `jsonschema_*` builder in `_backup.py` returns a schema dict that is fed
to `jsonschema.validate`.  We embed schema-plus-validator as one boolean
check implementing the JSON Schema semantics of the keywords used: `type`,
`required` (every listed key present), `properties` (each present declared key
matches its subschema), `additionalProperties: false` (no undeclared keys),
and `oneOf` (exactly one alternative matches).  Keywords other than `type`
apply only when the instance is an object.
-/

/-- Validation against `jsonschema_backup_info()` (`_backup.py` lines 22-34). -/
def validate_backup_info (j : Json) : Bool :=
  match j with
  | .obj fields =>
      (["id", "backuped"].all (fun k => fields.any (fun f => f.1 = k))) &&
      fields.all (fun f =>
        if f.1 = "id" then isStr f.2
        else if f.1 = "backuped" then isInt f.2
        else if f.1 = "totalPages" then isInt f.2
        else if f.1 = "totalLinks" then isInt f.2
        else false)
  | _ => false

/-- Validation against `jsonschema_backup_page_line()` (`_backup.py` lines
43-54).  The source schema spells its keyword `'requred'` (line 46), not
`'required'`; JSON Schema validators ignore unknown keywords, so this schema
performs no required-keys check — only the per-property type checks and
`additionalProperties: false` apply. -/
def validate_backup_page_line (j : Json) : Bool :=
  match j with
  | .obj fields =>
      fields.all (fun f =>
        if f.1 = "text" then isStr f.2
        else if f.1 = "created" then isInt f.2
        else if f.1 = "updated" then isInt f.2
        else false)
  | _ => false

/-- First `oneOf` alternative for the page `lines` field: array of strings. -/
def validate_lines_strings (j : Json) : Bool :=
  match j with
  | .arr items => items.all isStr
  | _ => false

/-- Second `oneOf` alternative for the page `lines` field: array of
line-records. -/
def validate_lines_records (j : Json) : Bool :=
  match j with
  | .arr items => items.all validate_backup_page_line
  | _ => false

/-- Validation of the page `lines` field (`_backup.py` lines 85-96): a
`oneOf` of the two array forms, satisfied when exactly one alternative
matches. -/
def validate_lines (j : Json) : Bool :=
  ((if validate_lines_strings j then 1 else 0) +
   (if validate_lines_records j then 1 else 0) : Nat) = 1

/-- Validation against `jsonschema_backup_page()` (`_backup.py` lines
75-103). -/
def validate_backup_page (j : Json) : Bool :=
  match j with
  | .obj fields =>
      (["title", "created", "updated", "lines"].all
        (fun k => fields.any (fun f => f.1 = k))) &&
      fields.all (fun f =>
        if f.1 = "title" then isStr f.2
        else if f.1 = "created" then isInt f.2
        else if f.1 = "updated" then isInt f.2
        else if f.1 = "id" then isStr f.2
        else if f.1 = "lines" then validate_lines f.2
        else if f.1 = "linksLc" then
          (match f.2 with
           | .arr items => items.all isStr
           | _ => false)
        else false)
  | _ => false

/-- Validation against `jsonschema_backup()` (`_backup.py` lines 113-128);
this is the check `Backup.__init__` runs on the snapshot document. -/
def validate_backup (j : Json) : Bool :=
  match j with
  | .obj fields =>
      (["name", "displayName", "exported", "pages"].all
        (fun k => fields.any (fun f => f.1 = k))) &&
      fields.all (fun f =>
        if f.1 = "name" then isStr f.2
        else if f.1 = "displayName" then isStr f.2
        else if f.1 = "exported" then isInt f.2
        else if f.1 = "pages" then
          (match f.2 with
           | .arr pages => pages.all validate_backup_page
           | _ => false)
        else false)
  | _ => false

/-! ## Typed data model

The `TypedDict` shapes of `_backup.py` (post-validation view of a snapshot).
-/

/-- One element of a page's `lines` field: either a bare string or a
`BackupPageLineJSON` record (`_backup.py` lines 37-40, 62). -/
inductive PageLine where
  | plain (text : String) : PageLine
  | record (text : String) (created updated : Int) : PageLine
deriving DecidableEq

/-- Text of one line, as extracted by the `match` in `page_lines`
(`_backup.py` lines 66-72): a bare string yields itself, a record yields its
`text` field. -/
def line_text : PageLine → String
  | .plain text => text
  | .record text _ _ => text

/-- A page (`BackupPageJSON`, `_backup.py` lines 57-63). -/
structure BackupPage where
  title : String
  created : Int
  updated : Int
  id : Option String
  lines : List PageLine
  linksLc : List String
deriving DecidableEq

/-- Plain-text lines of a page (`page_lines`, `_backup.py` lines 66-72). -/
def page_lines (page : BackupPage) : List String :=
  page.lines.map line_text

/-- A snapshot document (`BackupJSON`, `_backup.py` lines 106-110). -/
structure BackupJson where
  name : String
  displayName : String
  exported : Int
  pages : List BackupPage
deriving DecidableEq

/-- Snapshot metadata (`BackupInfoJSON`, `_backup.py` lines 15-19). -/
structure BackupInfo where
  id : String
  backuped : Int
  totalPages : Option Int
  totalLinks : Option Int
deriving DecidableEq

/-- The `Backup` object state (`_backup.py` lines 168-178): project name,
save directory (modelled as a list of path components), snapshot document,
optional metadata. -/
structure Backup where
  project : String
  directory : List String
  backup : BackupJson
  info : Option BackupInfo
deriving DecidableEq

/-- A link location (`Location`, `_backup.py` lines 131-134). -/
structure Location where
  title : String
  line : Nat
deriving DecidableEq

/-- Kind of an internal link target (`InternalLinkType`, `_backup.py`
line 12). -/
inductive InternalLinkType where
  | page : InternalLinkType
  | word : InternalLinkType
deriving DecidableEq

/-- A resolved internal link node (`InternalLinkNode`, `_backup.py` lines
150-153). -/
structure InternalLinkNode where
  name : String
  type : InternalLinkType
deriving DecidableEq

/-- Internal links of one page (`InternalLink`, `_backup.py` lines
156-159). -/
structure InternalLink where
  node : InternalLinkNode
  to_links : List InternalLinkNode
deriving DecidableEq

/-- An external link with all its occurrence locations (`ExternalLink`,
`_backup.py` lines 162-165). -/
structure ExternalLink where
  url : String
  locations : List Location
deriving DecidableEq

/-! ## Filename escaping and title normalization -/

/-- Translation of one character under the `str.translate` table of
`_escape_filename` (`_backup.py` lines 396-402). -/
def escape_char (c : Char) : List Char :=
  if c = ' ' then ['_']
  else if c = '#' then ['%', '2', '3']
  else if c = '%' then ['%', '2', '5']
  else if c = '/' then ['%', '2', 'F']
  else [c]

/-- Filename escaping (`_escape_filename`, `_backup.py` lines 396-402):
`str.translate` maps every character of the input independently through the
table, in one pass. -/
def escape_filename (text : String) : String :=
  String.mk (text.data.flatMap escape_char)

/-- Normalization of one character: `str.lower` followed by the
space-to-underscore replacement.  ASCII case mapping; the non-ASCII case
mappings of Python `str.lower` are not enumerated here (no claim involves
them). -/
def normalize_char (c : Char) : Char :=
  if c.toLower = ' ' then '_' else c.toLower

/-- Page-title normalization (`_normalize_page_title`, `_backup.py` lines
405-406): `title.lower().replace(' ', '_')`.  Both steps act character by
character (the replaced pattern is a single character), so the composition is
a character map. -/
def normalize_page_title (title : String) : String :=
  String.mk (title.data.map normalize_char)

/-! ## Stable sorting by key

Python `list.sort(key=k)` and `sorted(xs, key=k)` are stable ascending sorts
by `k`.  Any two stable sorts agree, so we model them with Mathlib's
insertion sort under the relation `k x ≤ k y` (which inserts each element
before the elements of equal key that follow it, preserving the original
relative order of equal-key elements).
-/

/-- Stable ascending sort by a key function, modelling Python `list.sort`
with `key=k` (and `sorted` likewise). -/
def sort_by_key {α β : Type} [LinearOrder β] (k : α → β) (l : List α) :
    List α :=
  List.insertionSort (fun x y => k x ≤ k y) l

theorem sort_by_key_perm {α β : Type} [LinearOrder β] (k : α → β)
    (l : List α) : (sort_by_key k l).Perm l :=
  List.perm_insertionSort _ l

theorem sort_by_key_sorted {α β : Type} [LinearOrder β] (k : α → β)
    (l : List α) :
    List.Pairwise (fun x y => k x ≤ k y) (sort_by_key k l) := by
  haveI : IsTotal α (fun x y => k x ≤ k y) := ⟨fun a b => le_total (k a) (k b)⟩
  haveI : IsTrans α (fun x y => k x ≤ k y) :=
    ⟨fun _ _ _ h1 h2 => le_trans h1 h2⟩
  exact List.sorted_insertionSort _ l

theorem filter_orderedInsert {α β : Type} [LinearOrder β] [DecidableEq β]
    (k : α → β) (c : β) (x : α) (l : List α) :
    (List.orderedInsert (fun a b => k a ≤ k b) x l).filter
        (fun a => k a = c) =
      if k x = c then x :: l.filter (fun a => k a = c)
      else l.filter (fun a => k a = c) := by
  induction l with
  | nil =>
      by_cases hx : k x = c <;>
        simp [List.orderedInsert, List.filter, hx]
  | cons y ys ih =>
      simp only [List.orderedInsert]
      by_cases hxy : k x ≤ k y
      · rw [if_pos hxy]
        by_cases hx : k x = c <;> by_cases hy : k y = c <;>
          simp [List.filter, hx, hy]
      · rw [if_neg hxy]
        by_cases hx : k x = c
        · have hy : ¬ k y = c := by
            intro hy
            exact hxy (le_of_eq (hx.trans hy.symm))
          simp [List.filter, hy, ih, hx]
        · by_cases hy : k y = c <;>
            simp [List.filter, hy, ih, hx]

/-- Stability of `sort_by_key`: the subsequence of elements with any given
key value is unchanged, i.e. ties keep their original relative order. -/
theorem sort_by_key_stable {α β : Type} [LinearOrder β] [DecidableEq β]
    (k : α → β) (c : β) (l : List α) :
    (sort_by_key k l).filter (fun a => k a = c) =
      l.filter (fun a => k a = c) := by
  induction l with
  | nil => rfl
  | cons x xs ih =>
      show (List.orderedInsert _ x (sort_by_key k xs)).filter _ = _
      rw [filter_orderedInsert k c x (sort_by_key k xs)]
      by_cases hx : k x = c <;> simp [List.filter, hx, ih]

/-! ## Code-span filter

Embedding of `_filter_code` (`_backup.py` lines 409-442).  Lines are lists of
characters.  The regexes of the source are specialised to character scanning:

* `indent`: `(\t| )*` matched at the start of of a line — the leading run of
  tabs and spaces (the match never fails, it may be empty);
* `code_block`: `(?P<indent>(\t| )*)code:.+` under `re.match` — leading
  tab/space run, then the literal `code:`, then at least one character other
  than a newline (`.` does not match newline);
* `cli_notation`: `(\t| )*(\$|%) .+` under `re.match`;
* `code_snippets`: `` `.*?` `` under `re.sub(' ')` — each non-greedy
  backtick-delimited span without an intervening newline is replaced by a
  single space, scanning left to right over non-overlapping matches.

Backtracking cannot shorten the `(\t| )*` runs: the character required next
(`c`, `$` or `%`) is never a tab or space, so the runs are exactly the
maximal leading whitespace runs.
-/

/-- Tab-or-space test for the `(\t| )*` character class. -/
def isIndentChar (c : Char) : Bool :=
  c = '\t' || c = ' '

/-- Length of the leading tab/space run of a line (the `indent` regex of
`_filter_code`; the defensive `None` branch of the source is unreachable
because `(\t| )*` matches the empty string). -/
def indent_level (l : List Char) : Nat :=
  (l.takeWhile isIndentChar).length

/-- Match of the `code_block` regex: on success, the length of the matched
leading whitespace run (the `indent` group, `_backup.py` line 435). -/
def code_block_start (l : List Char) : Option Nat :=
  match l.dropWhile isIndentChar with
  | 'c' :: 'o' :: 'd' :: 'e' :: ':' :: c :: _ =>
      if c = '\n' then none else some (indent_level l)
  | _ => none

/-- Match test for the `cli_notation` regex (`_backup.py` line 414). -/
def cli_prompt (l : List Char) : Bool :=
  match l.dropWhile isIndentChar with
  | p :: ' ' :: c :: _ => (p = '$' || p = '%') && c ≠ '\n'
  | _ => false

theorem drop_length_le {α : Type} (n : Nat) (l : List α) :
    (l.drop n).length ≤ l.length := by
  rw [List.length_drop]; omega

/-- Replacement of inline code spans (`code_snippets.sub(' ', line)`,
`_backup.py` line 441): at an opening backtick, the closing backtick must
appear before any newline; the whole span becomes one space.  An unmatched
backtick is kept and scanning resumes after it. -/
def code_snippets_sub (l : List Char) : List Char :=
  match l with
  | [] => []
  | '`' :: rest =>
      let seg := rest.takeWhile (fun c => c ≠ '`' && c ≠ '\n')
      match h : rest.drop seg.length with
      | '`' :: tail =>
          have : tail.length < rest.length + 1 := by
            have h1 : ('`' :: tail).length ≤ rest.length := by
              rw [← h]; exact drop_length_le seg.length rest
            simp only [List.length_cons] at h1
            omega
          ' ' :: code_snippets_sub tail
      | _ => '`' :: code_snippets_sub rest
  | c :: rest => c :: code_snippets_sub rest
termination_by l.length
decreasing_by
  · simpa using this
  · simp
  · simp

/-- One iteration of the `_filter_code` loop body on a line that is not
skipped as code-block content: the rules of `_backup.py` lines 433-442
(code-block start, CLI notation, code-snippet replacement).  Returns the new
code-block state and the yielded line, if any. -/
def process_line_rules (l : List Char) : Option Nat × Option (List Char) :=
  match code_block_start l with
  | some n => (some n, none)
  | none =>
      if cli_prompt l then (none, none)
      else (none, some (code_snippets_sub l))

/-- One iteration of the `_filter_code` loop body (`_backup.py` lines
420-442), including the in-code-block check: inside a code block a line with
indent greater than the stored level is skipped; otherwise the state is
cleared and the same line falls through to the remaining rules. -/
def process_line (st : Option Nat) (l : List Char) :
    Option Nat × Option (List Char) :=
  match st with
  | some lvl =>
      if indent_level l > lvl then (some lvl, none)
      else process_line_rules l
  | none => process_line_rules l

/-- The `_filter_code` loop over the enumerated lines, threading the
code-block state; yielded lines are paired with their index in the original
line sequence. -/
def filter_code_aux (st : Option Nat) (i : Nat) (lines : List (List Char)) :
    List (List Char × Nat) :=
  match lines with
  | [] => []
  | l :: rest =>
      match process_line st l with
      | (st2, some out) => (out, i) :: filter_code_aux st2 (i + 1) rest
      | (st2, none) => filter_code_aux st2 (i + 1) rest

/-- Embedding of `_filter_code` (`_backup.py` lines 409-442): the filtered
lines of a page, each paired with its `Location` (page title and original
line index). -/
def filter_code (page : BackupPage) : List (List Char × Location) :=
  (filter_code_aux none 0 ((page_lines page).map String.data)).map
    (fun p => (p.1, { title := page.title, line := p.2 }))

/-! ## External link scanning

Embedding of `re.findall(r'https?://[^\s\]]+', line)`
(`_backup.py` lines 235, 240).
-/

/-- Character class `[^\s\]]`: not whitespace and not a closing bracket.
ASCII whitespace; the additional Unicode whitespace code points recognised by
Python's `re` module are not enumerated here (no claim involves them). -/
def isUrlChar (c : Char) : Bool :=
  !(c = ' ' || c = '\t' || c = '\n' || c = '\r' ||
    c = '\x0b' || c = '\x0c') && c ≠ ']'

/-- Attempted match of `https?://[^\s\]]+` at the start of the text: on
success, the matched URL and the remaining text. -/
def match_url_at (l : List Char) : Option (String × List Char) :=
  match l with
  | 'h' :: 't' :: 't' :: 'p' :: 's' :: ':' :: '/' :: '/' :: rest =>
      if (rest.takeWhile isUrlChar).isEmpty then none
      else some
        (String.mk
          ('h' :: 't' :: 't' :: 'p' :: 's' :: ':' :: '/' :: '/' ::
            rest.takeWhile isUrlChar),
         rest.drop (rest.takeWhile isUrlChar).length)
  | 'h' :: 't' :: 't' :: 'p' :: ':' :: '/' :: '/' :: rest =>
      if (rest.takeWhile isUrlChar).isEmpty then none
      else some
        (String.mk
          ('h' :: 't' :: 't' :: 'p' :: ':' :: '/' :: '/' ::
            rest.takeWhile isUrlChar),
         rest.drop (rest.takeWhile isUrlChar).length)
  | _ => none

theorem match_url_at_rest_length {l : List Char} {u : String}
    {rest : List Char} (h : match_url_at l = some (u, rest)) :
    rest.length < l.length := by
  unfold match_url_at at h
  split at h
  · rename_i r
    split at h
    · exact absurd h (by simp)
    · simp only [Option.some.injEq, Prod.mk.injEq] at h
      have hle : rest.length ≤ r.length := by
        rw [← h.2]; exact drop_length_le _ r
      simp only [List.length_cons]
      omega
  · rename_i r
    split at h
    · exact absurd h (by simp)
    · simp only [Option.some.injEq, Prod.mk.injEq] at h
      have hle : rest.length ≤ r.length := by
        rw [← h.2]; exact drop_length_le _ r
      simp only [List.length_cons]
      omega
  · exact absurd h (by simp)

/-- Embedding of `re.findall` for the URL regex: scan left to right, at each
position emit the (leftmost, greedy, non-overlapping) match if one starts
there, otherwise advance one character. -/
def find_urls (l : List Char) : List String :=
  match h : match_url_at l with
  | some (u, rest) =>
      have : rest.length < l.length := match_url_at_rest_length h
      u :: find_urls rest
  | none =>
      match l with
      | [] => []
      | _ :: cs => find_urls cs
termination_by l.length
decreasing_by
  · simpa using this
  · simp

/-! ## External links (`Backup.external_links`, `_backup.py` lines 233-251) -/

/-- The scan stream of URL occurrences: pages in document order, filtered
lines in order, regex matches left to right within each line (the nested
loops of `external_links`). -/
def link_occurrences (b : BackupJson) : List (String × Location) :=
  b.pages.flatMap (fun page =>
    (filter_code page).flatMap (fun p =>
      (find_urls p.1).map (fun url => (url, p.2))))

/-- One occurrence folded into the accumulated link list (`_backup.py` lines
241-249): the first entry with the same URL gets the location appended;
otherwise a new entry is appended at the end. -/
def add_occurrence (links : List ExternalLink) (url : String)
    (loc : Location) : List ExternalLink :=
  match links with
  | [] => [{ url := url, locations := [loc] }]
  | l :: rest =>
      if l.url = url then
        { l with locations := l.locations ++ [loc] } :: rest
      else l :: add_occurrence rest url loc

/-- Embedding of `Backup.external_links` (`_backup.py` lines 233-251):
accumulate occurrences in scan order, then sort by URL (`links.sort(key=
lambda link: link.url)`; Python string order is lexicographic by code
point, as is the `String` order used here). -/
def external_links (b : BackupJson) : List ExternalLink :=
  sort_by_key (fun l => l.url)
    ((link_occurrences b).foldl (fun links occ =>
      add_occurrence links occ.1 occ.2) [])

/-! ## Internal links (`Backup.internal_links`, `_backup.py` lines 211-231) -/

/-- Sorted page titles (`Backup.page_titles`, `_backup.py` lines 208-209):
`sorted(page['title'] for page in pages)`. -/
def page_titles (b : BackupJson) : List String :=
  sort_by_key (fun t => t) (b.pages.map (fun page => page.title))

/-- The normalized-title dictionary (`_backup.py` lines 213-215):
`dict((_normalize_page_title(page), page) for page in self.page_titles())`,
as an association list in insertion order. -/
def pages_dict (titles : List String) : List (String × String) :=
  titles.map (fun t => (normalize_page_title t, t))

/-- Lookup in the dictionary: for duplicate keys Python `dict` keeps the
binding inserted last. -/
def dict_get (pairs : List (String × String)) (key : String) :
    Option String :=
  (pairs.reverse.find? (fun p => p.1 = key)).map (fun p => p.2)

/-- Resolution of one `linksLc` entry (`_backup.py` lines 220-224): the name
is `pages.get(link, link)` — the dictionary looked up at the raw link text —
and the type is `'page'` when `_normalize_page_title(link) in pages`, else
`'word'`. -/
def resolve_link (pairs : List (String × String)) (link : String) :
    InternalLinkNode :=
  { name := (dict_get pairs link).getD link,
    type :=
      if (dict_get pairs (normalize_page_title link)).isSome then .page
      else .word }

/-- Embedding of `Backup.internal_links` (`_backup.py` lines 211-231). -/
def internal_links (b : BackupJson) : List InternalLink :=
  sort_by_key (fun l => l.node.name)
    (b.pages.map (fun page =>
      { node := { name := page.title, type := .page }
        to_links :=
          sort_by_key (fun n => n.name)
            (page.linksLc.map (resolve_link (pages_dict (page_titles b)))) }))

/-! ## Page ordering (`Backup.sort_pages`, `_backup.py` lines 253-262) -/

/-- Page order selector (`PageOrder`, `_backup.py` line 11). -/
inductive PageOrder where
  | asIs : PageOrder
  | createdAsc : PageOrder
  | createdDesc : PageOrder
deriving DecidableEq

/-- Embedding of `Backup.sort_pages` (`_backup.py` lines 253-262): `None` and
`'as-is'` leave the list unchanged; `'created-asc'` sorts by
`page['created']`; `'created-desc'` sorts by `-page['created']` (both with
the stable `list.sort`). -/
def sort_pages (order : Option PageOrder) (pages : List BackupPage) :
    List BackupPage :=
  match order with
  | none => pages
  | some .asIs => pages
  | some .createdAsc => sort_by_key (fun page => page.created) pages
  | some .createdDesc => sort_by_key (fun page => -page.created) pages

/-! ## Save paths (`Backup.save_files` and `Backup.save`, `_backup.py` lines
264-301)

Paths are lists of components; `joinpath` appends one component.
-/

/-- Model of `pathlib.Path.joinpath` with a single-component name. -/
def joinpath (p : List String) (name : String) : List String :=
  p ++ [name]

/-- Model of `pathlib` suffix removal on a file name: drop from the last dot,
except that a dot at position 0 (hidden file) does not start a suffix. -/
def stem_of (name : String) : String :=
  match ((List.range name.data.length).filter
      (fun i => (name.data.drop i).head? = some '.')).getLast? with
  | some i => if i = 0 then name else String.mk (name.data.take i)
  | none => name

/-- Model of `pathlib.Path.with_suffix`: replace the final component's suffix
with the given one. -/
def with_suffix (p : List String) (suffix : String) : List String :=
  match p.getLast? with
  | some name => p.dropLast ++ [stem_of name ++ suffix]
  | none => []

/-- Embedding of `Backup.save_files` (`_backup.py` lines 264-278): the list
of paths the save operation will use, in append order. -/
def save_files (b : Backup) : List (List String) :=
  joinpath b.directory (escape_filename b.project ++ ".json") ::
    ((match b.info with
      | some _ =>
          [with_suffix
            (joinpath b.directory (escape_filename b.project ++ ".json"))
            ".info.json"]
      | none => []) ++
     b.backup.pages.map (fun page =>
       joinpath (joinpath b.directory "pages")
         (escape_filename page.title ++ ".json")))

/-- Embedding of `Backup.save` (`_backup.py` lines 280-301) as its effect
trace: the sequence of paths passed to `save_json`, in write order — the
snapshot file, then the metadata sidecar when metadata is present, then one
file per page under `pages/`. -/
def save_write_paths (b : Backup) : List (List String) :=
  joinpath b.directory (escape_filename b.project ++ ".json") ::
    ((match b.info with
      | some _ =>
          [with_suffix
            (joinpath b.directory (escape_filename b.project ++ ".json"))
            ".info.json"]
      | none => []) ++
     b.backup.pages.map (fun page =>
       joinpath (joinpath b.directory "pages")
         (escape_filename page.title ++ ".json")))

/-! ## Liveness prober (`_external_link.py`)

The network is abstracted by an oracle giving, per input index, the outcome
of `session.get`: a completed response (any HTTP status, with optional
`content-type` header) or a raised `asyncio.TimeoutError`/`aiohttp.
ClientError`.  `asyncio.gather` returns one result per awaitable, in the
order the awaitables were passed, regardless of completion order; the
semaphore wrapper `_parallel_request` returns `_request`'s result unchanged,
so the gathered list is the per-index `_request` results in input order.
-/

/-- A completed HTTP response log (`ResponseLog`, `_external_link.py` lines
12-15). -/
structure ResponseLog where
  status_code : Int
  content_type : Option String
deriving DecidableEq

/-- Response field of an external-link log (`_external_link.py` line 36):
the literal `'error'` or a `ResponseLog`. -/
inductive ResponseValue where
  | error : ResponseValue
  | log (r : ResponseLog) : ResponseValue
deriving DecidableEq

/-- One probe record (`ExternalLinkLog`, `_external_link.py` lines 31-36). -/
structure ExternalLinkLog where
  url : String
  locations : List Location
  access_timestamp : Int
  response : ResponseValue
deriving DecidableEq

/-- Outcome of one `session.get` call, as seen by `_request`. -/
inductive RequestOutcome where
  | completed (status : Int) (content_type : Option String) : RequestOutcome
  | failed : RequestOutcome
deriving DecidableEq

/-- Embedding of `_request` (`_external_link.py` lines 117-145): a completed
response of any status is recorded with its status code and content type; a
timeout or `aiohttp.ClientError` is caught and recorded as `'error'`. -/
def request_log (outcome : RequestOutcome) (access_timestamp : Int)
    (link : ExternalLink) : ExternalLinkLog :=
  match outcome with
  | .completed status content_type =>
      { url := link.url, locations := link.locations,
        access_timestamp := access_timestamp,
        response := .log { status_code := status,
                           content_type := content_type } }
  | .failed =>
      { url := link.url, locations := link.locations,
        access_timestamp := access_timestamp, response := .error }

/-- Embedding of `_request_external_links` (`_external_link.py` lines
91-114): tasks are created by `enumerate(links)` and gathered; the result
list holds, at position `i`, the `_request` result for link `i`. -/
def request_external_links (outcomes : Nat → RequestOutcome)
    (timestamps : Nat → Int) (links : List ExternalLink) :
    List ExternalLinkLog :=
  links.enum.map (fun p => request_log (outcomes p.1) (timestamps p.1) p.2)

/-- Default `parallel_limit` of `save_external_links` (`_external_link.py`
line 73). -/
def default_parallel_limit : Nat := 5

/-! ## Semaphore admission gate

Small-step model of the concurrency structure of `_request_external_links`:
one task per link, each of which runs `async with semaphore: await
_request(...)`.  Per the semantics of `asyncio.Semaphore(parallel_limit)`, a
task acquires the semaphore before its request (possible only while the
internal counter is positive, and decrementing it) and releases it when the
request finishes (the `async with` block exits — `_request` catches its
exceptions, so the block always exits by return).  A task is *in flight*
exactly between its acquire and its release.
-/

/-- Phase of one probe task. -/
inductive TaskPhase where
  | waiting : TaskPhase
  | running : TaskPhase
  | finished : TaskPhase
deriving DecidableEq

/-- Global state of a probe batch: the semaphore counter and the phase of
each task. -/
structure ProbeState where
  sem : Nat
  tasks : List TaskPhase
deriving DecidableEq

/-- Initial state of a batch of `n` tasks with `asyncio.Semaphore(limit)`. -/
def probe_init (limit : Nat) (n : Nat) : ProbeState :=
  { sem := limit, tasks := List.replicate n .waiting }

/-- Interleaving steps of the batch: a waiting task may acquire the semaphore
while the counter is positive; a running task may finish its request and
release the semaphore. -/
inductive ProbeStep : ProbeState → ProbeState → Prop where
  | acquire (s : ProbeState) (i : Nat) (hi : s.tasks.get? i = some .waiting)
      (hsem : 0 < s.sem) :
      ProbeStep s { sem := s.sem - 1, tasks := s.tasks.set i .running }
  | release (s : ProbeState) (i : Nat) (hi : s.tasks.get? i = some .running) :
      ProbeStep s { sem := s.sem + 1, tasks := s.tasks.set i .finished }

/-- Reachability of a batch state from the initial state. -/
def probe_reachable (limit n : Nat) (s : ProbeState) : Prop :=
  Relation.ReflTransGen ProbeStep (probe_init limit n) s

/-- Number of requests in flight in a state. -/
def in_flight (s : ProbeState) : Nat :=
  (s.tasks.filter (fun t => t = .running)).length

/-! ## Theorems -/

/-- C5: for every Backup, the sequence of file paths written by `save()` is
exactly the list returned by `save_files()`: the escaped-project-name JSON
path, then the `.info.json` sidecar path if and only if metadata is present,
then one path per page under the `pages/` subdirectory named from the escaped
page title, with both operations applying the same escaping function to every
name. -/
theorem save_paths_eq_save_files (b : Backup) :
    save_write_paths b = save_files b :=
  rfl

/-- C6: the filename-escaping function maps each character independently in a
single left-to-right pass — space to `_`, `#` to `%23`, `%` to `%25`, `/` to
`%2F`, every other character unchanged — so characters introduced by a
replacement are never themselves re-escaped; in particular `"A/B #1"` escapes
to `"A%2FB_%231"`. -/
theorem escape_filename_translation :
    (∀ s t : String,
      escape_filename (s ++ t) = escape_filename s ++ escape_filename t) ∧
    escape_filename " " = "_" ∧
    escape_filename "#" = "%23" ∧
    escape_filename "%" = "%25" ∧
    escape_filename "/" = "%2F" ∧
    (∀ c : Char, c ≠ ' ' → c ≠ '#' → c ≠ '%' → c ≠ '/' →
      escape_filename (String.mk [c]) = String.mk [c]) ∧
    escape_filename "A/B #1" = "A%2FB_%231" := by
  refine ⟨?_, by decide, by decide, by decide, by decide, ?_, by decide⟩
  · intro s t
    show String.mk ((s ++ t).data.flatMap escape_char) = _
    rw [String.data_append, List.flatMap_append]
    rfl
  · intro c h1 h2 h3 h4
    show String.mk (escape_char c ++ []) = _
    rw [escape_char, if_neg h1, if_neg h2, if_neg h3, if_neg h4]
    rfl

/-- Witness for the hypotheses of `escape_filename_translation`. -/
theorem escape_filename_translation_witness :
    escape_filename ("a b" ++ "c/d") =
      escape_filename "a b" ++ escape_filename "c/d" ∧
    escape_filename (String.mk ['x']) = String.mk ['x'] :=
  ⟨escape_filename_translation.1 "a b" "c/d",
   escape_filename_translation.2.2.2.2.2.1 'x'
     (by decide) (by decide) (by decide) (by decide)⟩

/-- A concrete page with a given creation timestamp, for the sorting
example. -/
def sample_page (c : Int) : BackupPage :=
  { title := "t", created := c, updated := 0, id := none,
    lines := [], linksLc := [] }

/-- C7: `sort_pages 'created-asc'` and `'created-desc'` reorder the pages
ascending respectively descending by their created timestamp, pages of equal
created timestamp keep their original relative order (stability), and
`'as-is'` leaves the page list unchanged; created values `[10, 30, 20]`
under `'created-desc'` yield order `[30, 20, 10]`. -/
theorem sort_pages_order_and_stability :
    (∀ pages : List BackupPage,
      sort_pages none pages = pages ∧
      sort_pages (some .asIs) pages = pages) ∧
    (∀ pages : List BackupPage,
      (sort_pages (some .createdAsc) pages).Perm pages ∧
      List.Pairwise (fun a b : BackupPage => a.created ≤ b.created)
        (sort_pages (some .createdAsc) pages) ∧
      (∀ c : Int,
        (sort_pages (some .createdAsc) pages).filter
            (fun p => p.created = c) =
          pages.filter (fun p => p.created = c))) ∧
    (∀ pages : List BackupPage,
      (sort_pages (some .createdDesc) pages).Perm pages ∧
      List.Pairwise (fun a b : BackupPage => b.created ≤ a.created)
        (sort_pages (some .createdDesc) pages) ∧
      (∀ c : Int,
        (sort_pages (some .createdDesc) pages).filter
            (fun p => p.created = c) =
          pages.filter (fun p => p.created = c))) ∧
    (sort_pages (some .createdDesc)
        [sample_page 10, sample_page 30, sample_page 20]).map
        (fun p => p.created) = [30, 20, 10] := by
  refine ⟨fun pages => ⟨rfl, rfl⟩, fun pages => ⟨?_, ?_, ?_⟩,
    fun pages => ⟨?_, ?_, ?_⟩, by decide⟩
  · exact sort_by_key_perm _ pages
  · exact sort_by_key_sorted (fun p => p.created) pages
  · exact fun c => sort_by_key_stable (fun p => p.created) c pages
  · exact sort_by_key_perm _ pages
  · have h := sort_by_key_sorted (fun p : BackupPage => -p.created) pages
    exact h.imp (fun hab => neg_le_neg_iff.mp hab)
  · intro c
    have h := sort_by_key_stable (fun p : BackupPage => -p.created) (-c) pages
    have hp : ∀ l : List BackupPage,
        l.filter (fun p => -p.created = -c) =
          l.filter (fun p => p.created = c) := by
      intro l
      apply List.filter_congr
      intro p _
      simp [neg_inj]
    rw [hp, hp] at h
    exact h

/-- A snapshot document whose single page has a line record that omits the
`created` and `updated` keys. -/
def backup_with_incomplete_line : Json :=
  Json.obj
    [("name", Json.str "proj"),
     ("displayName", Json.str "proj"),
     ("exported", Json.int 0),
     ("pages", Json.arr
       [Json.obj
         [("title", Json.str "t"),
          ("created", Json.int 0),
          ("updated", Json.int 0),
          ("lines", Json.arr [Json.obj [("text", Json.str "a")]])]])]

/-- C2: the claim says schema validation at Backup construction fails when a
line record omits one of the keys `text`, `created`, `updated`.  The code
does not enforce this: `jsonschema_backup_page_line` spells its keyword
`'requred'` (a typo for `'required'`, `_backup.py` line 46), an unknown
keyword that `jsonschema` ignores, so a record missing those keys still
validates and Backup construction succeeds; a record containing exactly the
three declared keys with the declared types also validates (that half of the
claim holds). -/
theorem page_line_missing_keys_accepted :
    validate_backup backup_with_incomplete_line = true ∧
    validate_backup_page_line (Json.obj [("text", Json.str "a")]) = true ∧
    validate_backup_page_line (Json.obj []) = true ∧
    validate_backup_page_line
      (Json.obj [("text", Json.str "a"), ("created", Json.int 0),
                 ("updated", Json.int 1)]) = true := by
  decide

/-- C10: a snapshot document containing a page whose `lines` field is the
empty array fails schema validation at Backup construction: the empty array
satisfies both permitted forms of `lines` (array of plain strings and array
of line-records), and the `oneOf` combinator requires exactly one of the two
alternatives to match. -/
theorem empty_lines_oneof_fails
    (bf : List (String × Json)) (ps : List Json)
    (pf : List (String × Json))
    (hpages : ("pages", Json.arr ps) ∈ bf)
    (hpage : Json.obj pf ∈ ps)
    (hlines : ("lines", Json.arr []) ∈ pf) :
    validate_backup (Json.obj bf) = false := by
  have hpagefail : validate_backup_page (Json.obj pf) = false := by
    have hfieldfail : pf.all (fun f =>
        if f.1 = "title" then isStr f.2
        else if f.1 = "created" then isInt f.2
        else if f.1 = "updated" then isInt f.2
        else if f.1 = "id" then isStr f.2
        else if f.1 = "lines" then validate_lines f.2
        else if f.1 = "linksLc" then
          (match f.2 with
           | .arr items => items.all isStr
           | _ => false)
        else false) = false := by
      refine List.all_eq_false.mpr ⟨("lines", Json.arr []), hlines, ?_⟩
      decide
    show (_ && _) = false
    rw [hfieldfail, Bool.and_false]
  have hpsfail : ps.all validate_backup_page = false :=
    List.all_eq_false.mpr ⟨Json.obj pf, hpage, by simp [hpagefail]⟩
  have hfieldfail : bf.all (fun f =>
      if f.1 = "name" then isStr f.2
      else if f.1 = "displayName" then isStr f.2
      else if f.1 = "exported" then isInt f.2
      else if f.1 = "pages" then
        (match f.2 with
         | .arr pages => pages.all validate_backup_page
         | _ => false)
      else false) = false := by
    refine List.all_eq_false.mpr ⟨("pages", Json.arr ps), hpages, ?_⟩
    simp only [if_neg (by decide : ¬ ("pages" : String) = "name"),
      if_neg (by decide : ¬ ("pages" : String) = "displayName"),
      if_neg (by decide : ¬ ("pages" : String) = "exported"),
      if_pos rfl]
    simp [hpsfail]
  show (_ && _) = false
  rw [hfieldfail, Bool.and_false]

/-- Witness for the hypotheses of `empty_lines_oneof_fails`: a concrete,
otherwise fully valid snapshot with an empty `lines` array fails
validation. -/
theorem empty_lines_oneof_fails_witness :
    validate_backup (Json.obj
      [("name", Json.str "proj"),
       ("displayName", Json.str "proj"),
       ("exported", Json.int 0),
       ("pages", Json.arr
         [Json.obj
           [("title", Json.str "t"),
            ("created", Json.int 0),
            ("updated", Json.int 0),
            ("lines", Json.arr [])]])]) = false :=
  empty_lines_oneof_fails _ _ _
    (List.Mem.tail _ (List.Mem.tail _ (List.Mem.tail _ (List.Mem.head _))))
    (List.Mem.head _)
    (List.Mem.tail _ (List.Mem.tail _ (List.Mem.tail _ (List.Mem.head _))))

/-- C8: the liveness prober produces exactly one result per link, in input
order (by original link index) regardless of completion order (completion
order is abstracted by the per-index outcome oracle; `asyncio.gather` returns
results in task order); a link whose request completes with any HTTP status
records the status code and content type, while a timeout or transport-level
failure records `'error'` for that link only and never disturbs the
remaining entries. -/
theorem request_external_links_per_link (outcomes : Nat → RequestOutcome)
    (timestamps : Nat → Int) (links : List ExternalLink) :
    (request_external_links outcomes timestamps links).length =
      links.length ∧
    (∀ i link, links.get? i = some link →
      (request_external_links outcomes timestamps links).get? i =
        some (request_log (outcomes i) (timestamps i) link)) ∧
    (∀ i link status ct, links.get? i = some link →
      outcomes i = .completed status ct →
      (request_external_links outcomes timestamps links).get? i =
        some { url := link.url, locations := link.locations,
               access_timestamp := timestamps i,
               response := .log { status_code := status,
                                  content_type := ct } }) ∧
    (∀ i link, links.get? i = some link → outcomes i = .failed →
      (request_external_links outcomes timestamps links).get? i =
        some { url := link.url, locations := link.locations,
               access_timestamp := timestamps i,
               response := .error }) := by
  have hget : ∀ i link, links.get? i = some link →
      (request_external_links outcomes timestamps links).get? i =
        some (request_log (outcomes i) (timestamps i) link) := by
    intro i link h
    simp [request_external_links, List.get?_eq_getElem?,
      List.getElem?_map, List.getElem?_enum,
      List.get?_eq_getElem? links i ▸ h]
  refine ⟨?_, hget, ?_, ?_⟩
  · simp [request_external_links]
  · intro i link status ct h ho
    rw [hget i link h, ho]
    rfl
  · intro i link h ho
    rw [hget i link h, ho]
    rfl

/-- Witness for the hypotheses of `request_external_links_per_link`, at a
two-link batch whose first request completes with status 404 and whose
second times out. -/
theorem request_external_links_per_link_witness :
    (request_external_links
        (fun i => if i = 0 then .completed 404 (some "text/html") else .failed)
        (fun _ => 7)
        [{ url := "http://a", locations := [] },
         { url := "http://b", locations := [] }]).get? 0 =
      some { url := "http://a", locations := [],
             access_timestamp := 7,
             response := .log { status_code := 404,
                                content_type := some "text/html" } } ∧
    (request_external_links
        (fun i => if i = 0 then .completed 404 (some "text/html") else .failed)
        (fun _ => 7)
        [{ url := "http://a", locations := [] },
         { url := "http://b", locations := [] }]).get? 1 =
      some { url := "http://b", locations := [],
             access_timestamp := 7, response := .error } :=
  ⟨(request_external_links_per_link _ _ _).2.2.1 0
      { url := "http://a", locations := [] } 404 (some "text/html")
      (by decide) rfl,
   (request_external_links_per_link _ _ _).2.2.2 1
      { url := "http://b", locations := [] } (by decide) rfl⟩

theorem filter_length_set {α : Type} [DecidableEq α] (p : α → Bool) :
    ∀ (l : List α) (i : Nat) (a b : α), l.get? i = some a →
      ((l.set i b).filter p).length + (if p a then 1 else 0) =
        (l.filter p).length + (if p b then 1 else 0) := by
  intro l
  induction l with
  | nil => intro i a b h; simp at h
  | cons x xs ih =>
      intro i a b h
      cases i with
      | zero =>
          have hax : x = a := by simpa using h
          subst hax
          by_cases hpa : p x <;> by_cases hpb : p b <;>
            simp [List.filter_cons, hpa, hpb]
      | succ n =>
          have h' : xs.get? n = some a := by simpa using h
          have hih := ih n a b h'
          rcases Bool.eq_false_or_eq_true (p x) with hpx | hpx <;>
            simp [List.set, List.filter_cons, hpx] <;> omega

/-- Reachable batch states satisfy `sem + in_flight = limit`: the semaphore
counter accounts exactly for the requests in flight. -/
theorem probe_invariant {limit n : Nat} {s : ProbeState}
    (h : probe_reachable limit n s) : s.sem + in_flight s = limit := by
  induction h with
  | refl =>
      have hrep : in_flight (probe_init limit n) = 0 := by
        simp [in_flight, probe_init, List.filter_replicate]
      rw [hrep]
      simp [probe_init]
  | @tail b c hsteps hstep ih =>
      cases hstep with
      | acquire i hi hsem =>
          have hlen := filter_length_set
            (fun t => decide (t = TaskPhase.running))
            b.tasks i .waiting .running hi
          rw [if_neg (by simp), if_pos (by simp)] at hlen
          simp only [in_flight] at ih ⊢
          omega
      | release i hi =>
          have hlen := filter_length_set
            (fun t => decide (t = TaskPhase.running))
            b.tasks i .running .finished hi
          rw [if_pos (by simp), if_neg (by simp)] at hlen
          simp only [in_flight] at ih ⊢
          omega

/-- C9: at every moment during a probe batch, at most `parallel_limit`
requests (default 5) are in flight simultaneously — in every state reachable
from the initial state of a batch, the number of running tasks is bounded by
the semaphore width. -/
theorem probe_parallel_bound :
    (∀ (limit n : Nat) (s : ProbeState),
      probe_reachable limit n s → in_flight s ≤ limit) ∧
    default_parallel_limit = 5 :=
  ⟨fun _ _ _ h => by have := probe_invariant h; omega, rfl⟩

/-- Witness for the hypotheses of `probe_parallel_bound`: with
`parallel_limit = 2` and 5 links, after two tasks have acquired the
semaphore, exactly 2 requests are in flight — within the bound. -/
theorem probe_parallel_bound_witness :
    in_flight { sem := 0,
                tasks := [.running, .running, .waiting, .waiting,
                          .waiting] } ≤ 2 ∧
    in_flight { sem := 0,
                tasks := [.running, .running, .waiting, .waiting,
                          .waiting] } = 2 := by
  have h1 : ProbeStep (probe_init 2 5)
      { sem := 1, tasks := [.running, .waiting, .waiting, .waiting,
                            .waiting] } := by
    have h := ProbeStep.acquire (probe_init 2 5) 0 (by decide) (by decide)
    exact h
  have h2 : ProbeStep
      { sem := 1, tasks := [TaskPhase.running, .waiting, .waiting, .waiting,
                            .waiting] }
      { sem := 0, tasks := [.running, .running, .waiting, .waiting,
                            .waiting] } := by
    have h := ProbeStep.acquire
      { sem := 1, tasks := [TaskPhase.running, .waiting, .waiting, .waiting,
                            .waiting] } 1 (by decide) (by decide)
    exact h
  refine ⟨probe_parallel_bound.1 2 5 _ ?_, by decide⟩
  exact Relation.ReflTransGen.tail (Relation.ReflTransGen.tail
    Relation.ReflTransGen.refl h1) h2

theorem dict_get_isSome (ts : List String) (key : String) :
    (dict_get (pages_dict ts) key).isSome = true ↔
      ∃ t ∈ ts, normalize_page_title t = key := by
  rw [dict_get, Option.isSome_map', List.find?_isSome]
  constructor
  · rintro ⟨x, hx, hpx⟩
    rw [List.mem_reverse, pages_dict, List.mem_map] at hx
    obtain ⟨t, ht, rfl⟩ := hx
    exact ⟨t, ht, by simpa using hpx⟩
  · rintro ⟨t, ht, hnorm⟩
    refine ⟨(normalize_page_title t, t), ?_, by simpa using hnorm⟩
    rw [List.mem_reverse, pages_dict, List.mem_map]
    exact ⟨t, ht, rfl⟩

theorem dict_get_some {ts : List String} {key v : String}
    (h : dict_get (pages_dict ts) key = some v) :
    v ∈ ts ∧ normalize_page_title v = key := by
  rw [dict_get, Option.map_eq_some'] at h
  obtain ⟨x, hfind, hx2⟩ := h
  have hmem := List.mem_of_find?_eq_some hfind
  have hp := List.find?_some hfind
  rw [List.mem_reverse, pages_dict, List.mem_map] at hmem
  obtain ⟨t, ht, rfl⟩ := hmem
  subst hx2
  exact ⟨ht, by simpa using hp⟩

theorem dict_get_eq_none {ts : List String} {key : String}
    (h : ∀ t ∈ ts, normalize_page_title t ≠ key) :
    dict_get (pages_dict ts) key = none := by
  rw [← Option.not_isSome_iff_eq_none]
  intro hs
  obtain ⟨t, ht, hnorm⟩ := (dict_get_isSome ts key).mp hs
  exact h t ht hnorm

/-- C1 amended: for every snapshot and every `lowercasedLinks` entry, the
resulting node has kind Page exactly when the entry's normalized form equals
the normalized form of some page title; its name is a canonical stored page
title only when the raw entry text itself equals the normalized form of a
page title (the name lookup uses the raw entry, not its normalized form),
and in every other case the name is the raw entry text. -/
theorem resolve_link_amended (b : BackupJson) (link : String) :
    ((∃ t ∈ page_titles b,
        normalize_page_title t = normalize_page_title link) →
      (resolve_link (pages_dict (page_titles b)) link).type = .page) ∧
    ((∀ t ∈ page_titles b,
        normalize_page_title t ≠ normalize_page_title link) →
      (resolve_link (pages_dict (page_titles b)) link).type = .word) ∧
    ((∃ t ∈ page_titles b, normalize_page_title t = link) →
      ∃ t ∈ page_titles b, normalize_page_title t = link ∧
        (resolve_link (pages_dict (page_titles b)) link).name = t) ∧
    ((∀ t ∈ page_titles b, normalize_page_title t ≠ link) →
      (resolve_link (pages_dict (page_titles b)) link).name = link) := by
  refine ⟨?_, ?_, ?_, ?_⟩
  · intro h
    have hs := (dict_get_isSome (page_titles b)
      (normalize_page_title link)).mpr h
    simp [resolve_link, hs]
  · intro h
    have hn := dict_get_eq_none h
    simp [resolve_link, hn]
  · intro h
    have hs := (dict_get_isSome (page_titles b) link).mpr h
    obtain ⟨v, hv⟩ := Option.isSome_iff_exists.mp hs
    obtain ⟨hvmem, hvnorm⟩ := dict_get_some hv
    exact ⟨v, hvmem, hvnorm, by simp [resolve_link, hv]⟩
  · intro h
    have hn := dict_get_eq_none h
    simp [resolve_link, hn]

/-- A snapshot with one page whose stored title contains an upper-case letter
and a space, referenced by a lower-cased link that keeps the space. -/
def backup_with_spaced_title : BackupJson :=
  { name := "proj", displayName := "proj", exported := 0,
    pages := [{ title := "Foo Bar", created := 0, updated := 0, id := none,
                lines := [], linksLc := ["foo bar"] }] }

/-- C1 counterexample: the link `"foo bar"` normalizes to `"foo_bar"`, which
matches the page title `"Foo Bar"` (so the node kind is Page), yet the
resulting node's name is the raw link text `"foo bar"`, not the canonical
stored title `"Foo Bar"`: the name lookup `pages.get(link, link)` uses the
raw link, whose key is absent from the normalized-title dictionary. -/
theorem internal_link_raw_lookup_counterexample :
    normalize_page_title "foo bar" = normalize_page_title "Foo Bar" ∧
    (resolve_link (pages_dict (page_titles backup_with_spaced_title))
        "foo bar").type = .page ∧
    (resolve_link (pages_dict (page_titles backup_with_spaced_title))
        "foo bar").name = "foo bar" ∧
    ("foo bar" : String) ≠ "Foo Bar" ∧
    internal_links backup_with_spaced_title =
      [{ node := { name := "Foo Bar", type := .page },
         to_links := [{ name := "foo bar", type := .page }] }] := by
  decide

/-- Witness for the hypotheses of `resolve_link_amended`, at the concrete
snapshot `backup_with_spaced_title`. -/
theorem resolve_link_amended_witness :
    ((resolve_link (pages_dict (page_titles backup_with_spaced_title))
        "foo bar").type = .page) ∧
    ((resolve_link (pages_dict (page_titles backup_with_spaced_title))
        "xyz").type = .word) ∧
    (∃ t ∈ page_titles backup_with_spaced_title,
      normalize_page_title t = "foo_bar" ∧
      (resolve_link (pages_dict (page_titles backup_with_spaced_title))
        "foo_bar").name = t) ∧
    ((resolve_link (pages_dict (page_titles backup_with_spaced_title))
        "xyz").name = "xyz") :=
  ⟨(resolve_link_amended backup_with_spaced_title "foo bar").1
      ⟨"Foo Bar", by decide, by decide⟩,
   (resolve_link_amended backup_with_spaced_title "xyz").2.1
      (by decide),
   (resolve_link_amended backup_with_spaced_title "foo_bar").2.2.1
      ⟨"Foo Bar", by decide, by decide⟩,
   (resolve_link_amended backup_with_spaced_title "xyz").2.2.2
      (by decide)⟩

theorem process_line_rules_yield {s2 : Option Nat} {l out : List Char}
    (h2 : process_line_rules l = (s2, some out)) :
    out = code_snippets_sub l := by
  rw [process_line_rules] at h2
  rcases hcb : code_block_start l with _ | n <;> simp only [hcb] at h2
  · by_cases hcli : cli_prompt l
    · simp only [hcli, if_true] at h2
      exact absurd h2 (by simp)
    · simp only [hcli, if_false] at h2
      exact (Option.some.inj (congrArg Prod.snd h2)).symm
  · exact absurd h2 (by simp)

theorem process_line_yield {st st2 : Option Nat} {l out : List Char}
    (h : process_line st l = (st2, some out)) :
    out = code_snippets_sub l := by
  rcases st with _ | lvl
  · exact process_line_rules_yield h
  · simp only [process_line] at h
    by_cases hlt : indent_level l > lvl
    · simp only [hlt, if_true] at h
      exact absurd h (by simp)
    · simp only [hlt, if_false] at h
      exact process_line_rules_yield h

theorem filter_code_aux_cons_yield {st st2 : Option Nat}
    {l out : List Char} {ls : List (List Char)} {i : Nat}
    (h : process_line st l = (st2, some out)) :
    filter_code_aux st i (l :: ls) =
      (out, i) :: filter_code_aux st2 (i + 1) ls := by
  rw [filter_code_aux, h]

theorem filter_code_aux_cons_skip {st st2 : Option Nat}
    {l : List Char} {ls : List (List Char)} {i : Nat}
    (h : process_line st l = (st2, none)) :
    filter_code_aux st i (l :: ls) = filter_code_aux st2 (i + 1) ls := by
  rw [filter_code_aux, h]

theorem filter_code_aux_mem :
    ∀ (lines : List (List Char)) (st : Option Nat) (i : Nat)
      (p : List Char × Nat), p ∈ filter_code_aux st i lines →
      i ≤ p.2 ∧ ∃ l, lines.get? (p.2 - i) = some l ∧
        p.1 = code_snippets_sub l := by
  intro lines
  induction lines with
  | nil => intro st i p hp; simp [filter_code_aux] at hp
  | cons l ls ih =>
      intro st i p hp
      rcases hpl : process_line st l with ⟨st2, yld⟩
      rcases yld with _ | out
      · rw [filter_code_aux_cons_skip hpl] at hp
        obtain ⟨hle, l', hget, hout⟩ := ih st2 (i + 1) p hp
        refine ⟨by omega, l', ?_, hout⟩
        have hidx : p.2 - i = (p.2 - (i + 1)) + 1 := by omega
        rw [hidx, List.get?_cons_succ]
        exact hget
      · rw [filter_code_aux_cons_yield hpl] at hp
        rcases List.mem_cons.mp hp with hp | hp
        · subst hp
          exact ⟨le_refl i, l, by simp, process_line_yield hpl⟩
        · obtain ⟨hle, l', hget, hout⟩ := ih st2 (i + 1) p hp
          refine ⟨by omega, l', ?_, hout⟩
          have hidx : p.2 - i = (p.2 - (i + 1)) + 1 := by omega
          rw [hidx, List.get?_cons_succ]
          exact hget

/-- C3: while the code-span filter is inside a code block it yields no line
whose leading-whitespace length exceeds the stored code-block indent level
(such lines are skipped with the state kept); the first line whose
leading-whitespace length is at most that level ends the block and is itself
processed by the remaining rules in the same pass (processing it equals
processing it with the state cleared); and every yielded line carries its
index in the original unfiltered line sequence, its text being the
code-snippet-substituted original line at that index. -/
theorem filter_code_block_behavior :
    (∀ (lvl i : Nat) (l : List Char) (rest : List (List Char)),
      lvl < indent_level l →
      filter_code_aux (some lvl) i (l :: rest) =
        filter_code_aux (some lvl) (i + 1) rest) ∧
    (∀ (lvl i : Nat) (l : List Char) (rest : List (List Char)),
      indent_level l ≤ lvl →
      filter_code_aux (some lvl) i (l :: rest) =
        filter_code_aux none i (l :: rest)) ∧
    (∀ (lines : List (List Char)) (st : Option Nat)
      (p : List Char × Nat), p ∈ filter_code_aux st 0 lines →
      ∃ l, lines.get? p.2 = some l ∧ p.1 = code_snippets_sub l) ∧
    (∀ (page : BackupPage) (q : List Char × Location),
      q ∈ filter_code page →
      q.2.title = page.title ∧
      ∃ s, (page_lines page).get? q.2.line = some s ∧
        q.1 = code_snippets_sub s.data) := by
  have hskip : ∀ (lvl i : Nat) (l : List Char) (rest : List (List Char)),
      lvl < indent_level l →
      filter_code_aux (some lvl) i (l :: rest) =
        filter_code_aux (some lvl) (i + 1) rest := by
    intro lvl i l rest h
    exact filter_code_aux_cons_skip (by rw [process_line, if_pos h])
  have hsame : ∀ (lvl i : Nat) (l : List Char) (rest : List (List Char)),
      indent_level l ≤ lvl →
      filter_code_aux (some lvl) i (l :: rest) =
        filter_code_aux none i (l :: rest) := by
    intro lvl i l rest h
    have hpl : process_line (some lvl) l = process_line none l := by
      rw [process_line, if_neg (by omega), process_line]
    rcases hv : process_line none l with ⟨st2, yld⟩
    rcases yld with _ | out
    · rw [filter_code_aux_cons_skip (hpl.trans hv),
        filter_code_aux_cons_skip hv]
    · rw [filter_code_aux_cons_yield (hpl.trans hv),
        filter_code_aux_cons_yield hv]
  have hidx : ∀ (lines : List (List Char)) (st : Option Nat)
      (p : List Char × Nat), p ∈ filter_code_aux st 0 lines →
      ∃ l, lines.get? p.2 = some l ∧ p.1 = code_snippets_sub l := by
    intro lines st p hp
    obtain ⟨-, l, hget, hout⟩ := filter_code_aux_mem lines st 0 p hp
    exact ⟨l, by simpa using hget, hout⟩
  refine ⟨hskip, hsame, hidx, ?_⟩
  intro page q hq
  rw [filter_code, List.mem_map] at hq
  obtain ⟨p, hp, rfl⟩ := hq
  obtain ⟨l, hget, hout⟩ :=
    hidx ((page_lines page).map String.data) none p hp
  rw [List.get?_eq_getElem?, List.getElem?_map] at hget
  rcases hs : (page_lines page)[p.2]? with _ | s
  · rw [hs] at hget; exact absurd hget (by simp)
  · rw [hs] at hget
    simp only [Option.map_some', Option.some.injEq] at hget
    exact ⟨rfl, s, by rw [List.get?_eq_getElem?]; exact hs,
      by rw [hout, hget]⟩

unseal code_snippets_sub in
/-- Witness for the hypotheses of `filter_code_block_behavior`, at the
worked example page `["code:js", "\tconsole.log(1)", "done",
"see http://example.com"]`. -/
theorem filter_code_block_behavior_witness :
    filter_code_aux (some 0) 1 ["\tconsole.log(1)".data] =
      filter_code_aux (some 0) 2 [] ∧
    filter_code_aux (some 0) 2 ["done".data, "see http://example.com".data] =
      filter_code_aux none 2 ["done".data, "see http://example.com".data] ∧
    (∃ l, ["code:js".data, "\tconsole.log(1)".data, "done".data,
        "see http://example.com".data].get? 3 = some l ∧
      "see http://example.com".data = code_snippets_sub l) ∧
    (("done".data,
        ({ title := "p", line := 2 } : Location)).2.title = "p" ∧
      ∃ s, (page_lines
          { title := "p", created := 0, updated := 0, id := none,
            lines := [.plain "code:js", .plain "\tconsole.log(1)",
                      .plain "done", .plain "see http://example.com"],
            linksLc := [] }).get? 2 = some s ∧
        "done".data = code_snippets_sub s.data) :=
  ⟨filter_code_block_behavior.1 0 1 "\tconsole.log(1)".data []
      (by decide),
   filter_code_block_behavior.2.1 0 2 "done".data
      ["see http://example.com".data] (by decide),
   filter_code_block_behavior.2.2.1
      ["code:js".data, "\tconsole.log(1)".data, "done".data,
       "see http://example.com".data] none
      ("see http://example.com".data, 3) (by decide),
   filter_code_block_behavior.2.2.2
      { title := "p", created := 0, updated := 0, id := none,
        lines := [.plain "code:js", .plain "\tconsole.log(1)",
                  .plain "done", .plain "see http://example.com"],
        linksLc := [] }
      ("done".data, { title := "p", line := 2 }) (by decide)⟩

/-- URLs of the accumulated link entries, in entry order. -/
def urls_of (links : List ExternalLink) : List String :=
  links.map (fun l => l.url)

theorem add_occurrence_of_not_mem (links : List ExternalLink) (u : String)
    (loc : Location) (h : ∀ l ∈ links, l.url ≠ u) :
    add_occurrence links u loc =
      links ++ [{ url := u, locations := [loc] }] := by
  induction links with
  | nil => rfl
  | cons l ls ih =>
      have hne : l.url ≠ u := h l (List.mem_cons_self l ls)
      rw [add_occurrence, if_neg hne,
        ih (fun x hx => h x (List.mem_cons_of_mem l hx))]
      rfl

theorem update_map_id (links : List ExternalLink) (u : String)
    (loc : Location) (h : ∀ l ∈ links, l.url ≠ u) :
    links.map (fun l => if l.url = u then
        { l with locations := l.locations ++ [loc] } else l) = links := by
  conv_rhs => rw [← List.map_id links]
  apply List.map_congr_left
  intro a ha
  rw [if_neg (h a ha)]
  rfl

theorem add_occurrence_of_mem (links : List ExternalLink) (u : String)
    (loc : Location) (hnd : (urls_of links).Nodup)
    (hmem : ∃ l ∈ links, l.url = u) :
    add_occurrence links u loc =
      links.map (fun l => if l.url = u then
        { l with locations := l.locations ++ [loc] } else l) := by
  induction links with
  | nil =>
      obtain ⟨l, hl, _⟩ := hmem
      exact absurd hl (by simp)
  | cons l ls ih =>
      have hnd' : (l.url :: urls_of ls).Nodup := by
        simpa [urls_of] using hnd
      by_cases hu : l.url = u
      · rw [add_occurrence, if_pos hu, List.map_cons, if_pos hu]
        have hls : ∀ x ∈ ls, x.url ≠ u := by
          intro x hx hxu
          exact (List.nodup_cons.mp hnd').1
            (by rw [hu, ← hxu]; exact List.mem_map_of_mem _ hx)
        rw [update_map_id ls u loc hls]
      · rw [add_occurrence, if_neg hu, List.map_cons, if_neg hu]
        have hmem2 : ∃ x ∈ ls, x.url = u := by
          obtain ⟨x, hx, hxu⟩ := hmem
          rcases List.mem_cons.mp hx with rfl | hx2
          · exact absurd hxu hu
          · exact ⟨x, hx2, hxu⟩
        rw [ih (by simpa [urls_of] using (List.nodup_cons.mp hnd').2) hmem2]

/-- Invariant of the `external_links` accumulation loop relative to the
prefix of the occurrence stream already processed. -/
def occ_invariant (seen : List (String × Location))
    (links : List ExternalLink) : Prop :=
  (urls_of links).Nodup ∧
  (∀ l ∈ links,
    l.locations =
      (seen.filter (fun o => o.1 = l.url)).map (fun o => o.2)) ∧
  (∀ o ∈ seen, ∃ l ∈ links, l.url = o.1)

theorem occ_invariant_nil : occ_invariant [] [] :=
  ⟨by simp [urls_of], by simp, by simp⟩

theorem occ_invariant_step {seen : List (String × Location)}
    {links : List ExternalLink} (h : occ_invariant seen links)
    (u : String) (loc : Location) :
    occ_invariant (seen ++ [(u, loc)]) (add_occurrence links u loc) := by
  obtain ⟨hnd, hloc, hcomp⟩ := h
  by_cases hmem : ∃ l ∈ links, l.url = u
  · rw [add_occurrence_of_mem links u loc hnd hmem]
    refine ⟨?_, ?_, ?_⟩
    · have hurls : urls_of (links.map (fun l => if l.url = u then
          { l with locations := l.locations ++ [loc] } else l)) =
          urls_of links := by
        simp only [urls_of, List.map_map]
        apply List.map_congr_left
        intro a _
        by_cases ha : a.url = u <;> simp [Function.comp, ha]
      rw [hurls]
      exact hnd
    · intro l' hl'
      rw [List.mem_map] at hl'
      obtain ⟨a, ha, rfl⟩ := hl'
      by_cases hau : a.url = u
      · rw [if_pos hau]
        show a.locations ++ [loc] =
          ((seen ++ [(u, loc)]).filter
            (fun o => o.1 = a.url)).map (fun o => o.2)
        rw [List.filter_append, List.map_append, ← hloc a ha]
        congr 1
        simp [List.filter_cons, hau.symm]
      · rw [if_neg hau]
        rw [List.filter_append, List.map_append, ← hloc a ha]
        have hne : ¬ u = a.url := fun h => hau h.symm
        have hone : [(u, loc)].filter (fun o => o.1 = a.url) = [] := by
          simp [List.filter_cons, hne]
        rw [hone]
        simp
    · intro o ho
      rcases List.mem_append.mp ho with ho | ho
      · obtain ⟨l, hl, hurl⟩ := hcomp o ho
        refine ⟨if l.url = u then
          { l with locations := l.locations ++ [loc] } else l,
          List.mem_map_of_mem _ hl, ?_⟩
        by_cases hlu : l.url = u
        · rw [if_pos hlu]
          exact hurl
        · rw [if_neg hlu]
          exact hurl
      · have ho2 : o = (u, loc) := by simpa using ho
        subst ho2
        obtain ⟨l, hl, hurl⟩ := hmem
        refine ⟨if l.url = u then
          { l with locations := l.locations ++ [loc] } else l,
          List.mem_map_of_mem _ hl, ?_⟩
        rw [if_pos hurl]
        exact hurl
  · push_neg at hmem
    rw [add_occurrence_of_not_mem links u loc hmem]
    refine ⟨?_, ?_, ?_⟩
    · have hurls : urls_of (links ++ [{ url := u, locations := [loc] }]) =
          urls_of links ++ [u] := by
        simp [urls_of]
      rw [hurls, List.nodup_append]
      refine ⟨hnd, List.nodup_singleton u, ?_⟩
      intro x hx hxu
      have hxu2 : x = u := by simpa using hxu
      subst hxu2
      obtain ⟨l, hl, hurl⟩ := List.mem_map.mp hx
      exact hmem l hl hurl
    · intro l' hl'
      rcases List.mem_append.mp hl' with hl' | hl'
      · rw [List.filter_append, List.map_append, ← hloc l' hl']
        have hne : ¬ u = l'.url := fun h => hmem l' hl' h.symm
        have hone : [(u, loc)].filter (fun o => o.1 = l'.url) = [] := by
          simp [List.filter_cons, hne]
        rw [hone]
        simp
      · have hl2 : l' = { url := u, locations := [loc] } := by
          simpa using hl'
        subst hl2
        show [loc] =
          ((seen ++ [(u, loc)]).filter (fun o => o.1 = u)).map
            (fun o => o.2)
        have hseen : seen.filter (fun o => o.1 = u) = [] := by
          rw [List.filter_eq_nil_iff]
          intro o ho hou
          obtain ⟨l, hl, hurl⟩ := hcomp o ho
          exact hmem l hl (by rw [hurl]; simpa using hou)
        rw [List.filter_append, hseen]
        simp
    · intro o ho
      rcases List.mem_append.mp ho with ho | ho
      · obtain ⟨l, hl, hurl⟩ := hcomp o ho
        exact ⟨l, List.mem_append_left _ hl, hurl⟩
      · have ho2 : o = (u, loc) := by simpa using ho
        subst ho2
        exact ⟨{ url := u, locations := [loc] },
          List.mem_append_right _ (by simp), rfl⟩

theorem occ_fold :
    ∀ (stream seen : List (String × Location)) (links : List ExternalLink),
      occ_invariant seen links →
      occ_invariant (seen ++ stream)
        (stream.foldl (fun ls o => add_occurrence ls o.1 o.2) links) := by
  intro stream
  induction stream with
  | nil =>
      intro seen links h
      simpa using h
  | cons o os ih =>
      intro seen links h
      rw [List.foldl_cons]
      have h3 := ih (seen ++ [(o.1, o.2)]) (add_occurrence links o.1 o.2)
        (occ_invariant_step h o.1 o.2)
      have heq : seen ++ o :: os = (seen ++ [(o.1, o.2)]) ++ os := by
        simp
      rw [heq]
      exact h3

/-- C4: `external_links` returns a list with pairwise strictly ascending
(hence duplicate-free) URLs, and each entry's locations are exactly the
occurrences of its URL in scan order (pages in document order, filtered
lines in order, matches left to right within a line); every scanned
occurrence is accounted for by some entry, so a URL seen again appends to
the existing entry rather than creating a new one. -/
theorem external_links_def (b : BackupJson) :
    external_links b =
      sort_by_key (fun l => l.url)
        ((link_occurrences b).foldl
          (fun ls o => add_occurrence ls o.1 o.2) []) :=
  rfl

theorem external_links_sorted_dedup (b : BackupJson) :
    List.Pairwise (fun x y : ExternalLink => x.url < y.url)
      (external_links b) ∧
    (∀ l ∈ external_links b,
      l.locations = ((link_occurrences b).filter
          (fun o => o.1 = l.url)).map (fun o => o.2)) ∧
    (∀ o ∈ link_occurrences b, ∃ l ∈ external_links b, l.url = o.1) := by
  have hinv := occ_fold (link_occurrences b) [] [] occ_invariant_nil
  rw [List.nil_append] at hinv
  obtain ⟨hnd, hloc, hcomp⟩ := hinv
  have hperm := sort_by_key_perm (fun l : ExternalLink => l.url)
    ((link_occurrences b).foldl (fun ls o => add_occurrence ls o.1 o.2) [])
  rw [external_links_def]
  refine ⟨?_, ?_, ?_⟩
  · have hsorted := sort_by_key_sorted (fun l : ExternalLink => l.url)
      ((link_occurrences b).foldl (fun ls o => add_occurrence ls o.1 o.2) [])
    have hnd2 : (List.map (fun l : ExternalLink => l.url)
        (sort_by_key (fun l : ExternalLink => l.url)
          ((link_occurrences b).foldl
            (fun ls o => add_occurrence ls o.1 o.2) []))).Nodup :=
      List.Nodup.perm (by simpa [urls_of] using hnd)
        (hperm.map (fun l : ExternalLink => l.url)).symm
    have hne := List.pairwise_map.mp hnd2
    exact (hsorted.and hne).imp (fun hab => lt_iff_le_and_ne.mpr hab)
  · intro l hl
    exact hloc l (hperm.subset hl)
  · intro o ho
    obtain ⟨l, hl, hurl⟩ := hcomp o ho
    exact ⟨l, hperm.mem_iff.mpr hl, hurl⟩

/-- A snapshot with one URL occurring three times across two pages and both
line forms, and a second, lexicographically earlier URL. -/
def backup_with_links : BackupJson :=
  { name := "proj", displayName := "proj", exported := 0,
    pages := [
      { title := "A", created := 0, updated := 0, id := none,
        lines := [.plain "see http://z.example and http://a.example",
                  .plain "again http://z.example"], linksLc := [] },
      { title := "B", created := 0, updated := 0, id := none,
        lines := [.record "also http://z.example" 0 0], linksLc := [] }] }

unseal String.ltb find_urls code_snippets_sub in
/-- Witness for the hypotheses of `external_links_sorted_dedup`, at the
concrete snapshot `backup_with_links`. -/
theorem external_links_sorted_dedup_witness :
    ({ url := "http://z.example",
       locations := [{ title := "A", line := 0 }, { title := "A", line := 1 },
                     { title := "B", line := 0 }] } : ExternalLink).locations =
      ((link_occurrences backup_with_links).filter
        (fun o => o.1 = "http://z.example")).map (fun o => o.2) ∧
    (∃ l ∈ external_links backup_with_links, l.url = "http://z.example") :=
  ⟨(external_links_sorted_dedup backup_with_links).2.1
      { url := "http://z.example",
        locations := [{ title := "A", line := 0 }, { title := "A", line := 1 },
                      { title := "B", line := 0 }] }
      (by decide),
   (external_links_sorted_dedup backup_with_links).2.2
      ("http://z.example", { title := "A", line := 0 }) (by decide)⟩

end BackupScrapbox
